import Mathlib

/-!
Verification development for the Blender Annotation Tool add-on
(`functionality.py`): a shallow embedding of the class-registry operators,
the instance-color palette, and the animation-render loop, together with
proofs of the specified properties.
-/

/-- Result status returned by a Blender operator `execute` method
(e.g. `{'FINISHED'}`). -/
inductive Status where
  | FINISHED : Status
  | CANCELLED : Status
deriving DecidableEq

/-- Report level passed to `Operator.report`, as used in `functionality.py`. -/
inductive ReportLevel where
  | ERROR_INVALID_INPUT : ReportLevel
  | WARNING : ReportLevel
deriving DecidableEq

/-- A user-facing message emitted through `self.report({level}, message)`. -/
structure Report where
  level : ReportLevel
  message : String
deriving DecidableEq

/-- Fuel-driven unfolding of Python `range` iteration with stop bound `stop`
and increment `step`: emits `cur` while `cur < stop`. -/
def rangeAux (stop step : ℤ) : ℕ → ℤ → List ℤ
  | 0, _ => []
  | fuel + 1, cur => if cur < stop then cur :: rangeAux stop step fuel (cur + step) else []

/-- Python `range(start, stop, step)` for a positive `step`: the fuel
`(stop - start).toNat` bounds the number of iterations since each step
advances by at least 1. -/
def pythonRange (start stop step : ℤ) : List ℤ :=
  rangeAux stop step (stop - start).toNat start

/-- The channel values driven by each of the three nested loops building
`INSTANCE_COLORS`: `reversed(range(10, 240, 10))`, i.e. 230, 220, ..., 10. -/
def channelValues : List ℤ := (pythonRange 10 240 10).reverse

/-- The module-level list `INSTANCE_COLORS`: nested loops over
`reversed(range(10,240,10))` for r (outer), g (middle), b (inner), each
channel scaled by `/255`, appending the tuple `(r, g, b, 1)`. -/
def INSTANCE_COLORS : List (ℚ × ℚ × ℚ × ℚ) :=
  channelValues.flatMap (fun (r : ℤ) =>
    channelValues.flatMap (fun (g : ℤ) =>
      channelValues.map (fun (b : ℤ) =>
        ((r : ℚ) / 255, (g : ℚ) / 255, (b : ℚ) / 255, 1))))

/-- The generator factory `instance_color()`: every call (modelled by an
argument of type `Unit`) yields the elements of `INSTANCE_COLORS` in order,
from the first element. -/
def instance_color : Unit → List (ℚ × ℚ × ℚ × ℚ) := fun _ => INSTANCE_COLORS

/-- Modelled from the spec: `DEFAULT_CLASS_NAME` is imported from `utils`,
which is not part of the sources; the spec calls the default entry the
"Background" class. No result below depends on the actual string value. -/
def DEFAULT_CLASS_NAME : String := "Background"

/-- Modelled from the spec: the placeholder mask color a freshly added class
entry carries (`mask_color` keeps its property default, declared outside the
sources). No result below depends on the actual value. -/
def placeholder_mask_color : ℚ × ℚ × ℚ := (0, 0, 0)

/-- One entry of the class registry `bat_properties.classification_classes`. -/
structure ClassEntry where
  name : String
  mask_color : ℚ × ℚ × ℚ
deriving DecidableEq

/-- The scene-scoped state the class operators touch: the ordered registry
`classification_classes` and the selection `current_class`. -/
structure BatProperties where
  classification_classes : List ClassEntry
  current_class : String
deriving DecidableEq

/-- Outcome of running an operator `execute`: the resulting properties, the
reports emitted, and the returned status. -/
structure OpResult where
  props : BatProperties
  reports : List Report
  status : Status
deriving DecidableEq

/-- The names held in the registry, in order. -/
def classNames (p : BatProperties) : List String :=
  p.classification_classes.map (fun c => c.name)

/-- `setDefaultClassName(scene)`: if the list of classes is empty, `add()` an
entry and give it the default name and mask color `(0,0,0)`. -/
def setDefaultClassName (p : BatProperties) : BatProperties :=
  if p.classification_classes.isEmpty then
    { p with classification_classes :=
        p.classification_classes ++ [{ name := DEFAULT_CLASS_NAME, mask_color := (0, 0, 0) }] }
  else p

/-- `BAT_OT_add_class.execute`: reject the empty name with an
`ERROR_INVALID_INPUT` report, reject an existing name with a `WARNING`
report, otherwise `add()` an entry, set its name, and point
`current_class` at the last entry (`classification_classes[-1].name`).
All paths return `{'FINISHED'}`. -/
def addClass (new_class_name : String) (p : BatProperties) : OpResult :=
  if new_class_name = "" then
    { props := p
      reports := [{ level := ReportLevel.ERROR_INVALID_INPUT
                    message := "The class name must not be empty!" }]
      status := Status.FINISHED }
  else if new_class_name ∈ p.classification_classes.map (fun c => c.name) then
    { props := p
      reports := [{ level := ReportLevel.WARNING
                    message := "The class name already exists" }]
      status := Status.FINISHED }
  else
    let classes' := p.classification_classes
        ++ [{ name := new_class_name, mask_color := placeholder_mask_color }]
    { props := { classification_classes := classes'
                 current_class := (classes'.getLastD
                    { name := "", mask_color := (0, 0, 0) }).name }
      reports := []
      status := Status.FINISHED }

/-- Blender collection `find(key)`: the index of the first member whose
`name` matches `key`, or `-1` when there is none. -/
def collectionFind (classes : List ClassEntry) (key : String) : ℤ :=
  match classes.findIdx? (fun c => c.name = key) with
  | some i => (i : ℤ)
  | none => -1

/-- `BAT_OT_remove_class.execute`: look up `current_class`; when the list is
non-empty, the selection is not the default name, and the found index is at
least 1, `remove(index)` and set `current_class` to
`classification_classes[index-1].name`; otherwise do nothing. Always
returns `{'FINISHED'}` and never reports. -/
def removeClass (p : BatProperties) : OpResult :=
  let index := collectionFind p.classification_classes p.current_class
  if 0 < p.classification_classes.length ∧ p.current_class ≠ DEFAULT_CLASS_NAME ∧ 1 ≤ index then
    let classes' := p.classification_classes.eraseIdx index.toNat
    { props := { classification_classes := classes'
                 current_class := (classes'.getD (index.toNat - 1)
                    { name := "", mask_color := (0, 0, 0) }).name }
      reports := []
      status := Status.FINISHED }
  else
    { props := p, reports := [], status := Status.FINISHED }

/-- The scene state read and written by `BAT_OT_render_animation.execute`. -/
structure RenderScene where
  frame_start : ℤ
  frame_end : ℤ
  frame_step : ℤ
  frame_current : ℤ
  filepath : String
deriving DecidableEq

/-- One iteration of the animation-render loop body: `frame_set(frame_num)`,
save `scene.render.filepath`, redirect it to
`scene.render.frame_path(frame=scene.frame_current)` (modelled by the host
function `frame_path` of the template and the frame), perform
`bpy.ops.render.render(write_still=True)` (logged as the pair of the current
frame and the output path written), and restore the original path. -/
def renderFrame (frame_path : String → ℤ → String)
    (acc : RenderScene × List (ℤ × String)) (frame_num : ℤ) :
    RenderScene × List (ℤ × String) :=
  let scene := { acc.1 with frame_current := frame_num }
  let original_render_path := scene.filepath
  let scene := { scene with filepath := frame_path scene.filepath scene.frame_current }
  let log := acc.2 ++ [(scene.frame_current, scene.filepath)]
  let scene := { scene with filepath := original_render_path }
  (scene, log)

/-- `BAT_OT_render_animation.execute`: iterate
`range(frame_start, frame_end + 1, frame_step)`, run the loop body at each
frame, and return `{'FINISHED'}`. The middle component is the render log:
the frames rendered with the output path each was written to, in order. -/
def renderAnimationExecute (frame_path : String → ℤ → String) (scene : RenderScene) :
    RenderScene × List (ℤ × String) × Status :=
  let res := (pythonRange scene.frame_start (scene.frame_end + 1) scene.frame_step).foldl
      (renderFrame frame_path) (scene, [])
  (res.1, res.2, Status.FINISHED)

/-- The three registry invariants of the spec: the registry is non-empty, the
default class name is present, and class names are pairwise distinct. -/
def RegistryInvariant (p : BatProperties) : Prop :=
  p.classification_classes ≠ [] ∧
  DEFAULT_CLASS_NAME ∈ p.classification_classes.map (fun c => c.name) ∧
  (p.classification_classes.map (fun c => c.name)).Nodup

/-- A concrete two-entry registry with the second entry selected, used by
witnesses. -/
def sampleTwoEntries : BatProperties :=
  { classification_classes :=
      [{ name := "Background", mask_color := (0, 0, 0) },
       { name := "car", mask_color := (0, 0, 0) }]
    current_class := "car" }

theorem mem_rangeAux_iff (stop step : ℤ) (hstep : 1 ≤ step) :
    ∀ (fuel : ℕ) (cur f : ℤ), (stop - cur).toNat ≤ fuel →
      (f ∈ rangeAux stop step fuel cur ↔ cur ≤ f ∧ f < stop ∧ step ∣ f - cur) := by
  intro fuel
  induction fuel with
  | zero =>
    intro cur f h
    simp only [rangeAux, List.not_mem_nil, false_iff]
    rintro ⟨h1, h2, -⟩
    omega
  | succ n ih =>
    intro cur f h
    simp only [rangeAux]
    by_cases hlt : cur < stop
    · rw [if_pos hlt]
      simp only [List.mem_cons]
      rw [ih (cur + step) f (by omega)]
      constructor
      · rintro (rfl | ⟨h1, h2, k, hk⟩)
        · exact ⟨le_refl _, hlt, ⟨0, by ring⟩⟩
        · exact ⟨by omega, h2, ⟨k + 1, by linear_combination hk⟩⟩
      · rintro ⟨h1, h2, k, hk⟩
        by_cases hf : f = cur
        · exact Or.inl hf
        · have hk1 : 1 ≤ k := by
            by_contra hk1
            push_neg at hk1
            have hk0 : k ≤ 0 := by omega
            have : step * k ≤ 0 := mul_nonpos_of_nonneg_of_nonpos (by omega) hk0
            omega
          have h3 : 0 ≤ step * (k - 1) := mul_nonneg (by omega) (by omega)
          have h4 : step * (k - 1) = f - cur - step := by linear_combination -hk
          exact Or.inr ⟨by omega, h2, ⟨k - 1, by linear_combination hk⟩⟩
    · rw [if_neg hlt]
      simp only [List.not_mem_nil, false_iff]
      rintro ⟨h1, h2, -⟩
      omega

theorem mem_pythonRange_iff (start stop step f : ℤ) (hstep : 1 ≤ step) :
    f ∈ pythonRange start stop step ↔ start ≤ f ∧ f < stop ∧ step ∣ f - start :=
  mem_rangeAux_iff stop step hstep _ start f (le_refl _)

theorem renderFrame_foldl (fp : String → ℤ → String) :
    ∀ (fs : List ℤ) (sc : RenderScene) (l : List (ℤ × String)),
      (fs.foldl (renderFrame fp) (sc, l)).2 = l ++ fs.map (fun f => (f, fp sc.filepath f)) ∧
      (fs.foldl (renderFrame fp) (sc, l)).1.filepath = sc.filepath := by
  intro fs
  induction fs with
  | nil =>
    intro sc l
    simp
  | cons f t ih =>
    intro sc l
    simp only [List.foldl_cons, List.map_cons]
    have hstep : renderFrame fp (sc, l) f
        = ({ sc with frame_current := f }, l ++ [(f, fp sc.filepath f)]) := rfl
    rw [hstep]
    have h := ih { sc with frame_current := f } (l ++ [(f, fp sc.filepath f)])
    simpa [List.append_assoc] using h

/-- C4: for every scene (with a positive frame step, as the host enforces),
the animation render operator renders exactly the frames starting at
`frame_start`, stepping by `frame_step`, inclusive of `frame_end`, in order,
each with output path derived from that frame number by the host's
`frame_path`; for `frame_start = 1`, `frame_end = 5`, `frame_step = 2`
exactly the frames 1, 3, 5 are rendered. -/
theorem renderAnimation_renders_exact_frames (fp : String → ℤ → String) (s : RenderScene)
    (hstep : 1 ≤ s.frame_step) :
    (renderAnimationExecute fp s).2.1
      = (pythonRange s.frame_start (s.frame_end + 1) s.frame_step).map
          (fun f => (f, fp s.filepath f)) ∧
    ∀ f : ℤ, f ∈ (renderAnimationExecute fp s).2.1.map Prod.fst ↔
      s.frame_start ≤ f ∧ f ≤ s.frame_end ∧ s.frame_step ∣ f - s.frame_start := by
  have hlog :=
    (renderFrame_foldl fp (pythonRange s.frame_start (s.frame_end + 1) s.frame_step) s []).1
  have h1 : (renderAnimationExecute fp s).2.1
      = (pythonRange s.frame_start (s.frame_end + 1) s.frame_step).map
          (fun f => (f, fp s.filepath f)) := by
    simpa [renderAnimationExecute] using hlog
  refine ⟨h1, fun f => ?_⟩
  rw [h1]
  simp only [List.map_map, Function.comp_def, List.mem_map]
  rw [show (∃ a, a ∈ pythonRange s.frame_start (s.frame_end + 1) s.frame_step ∧ a = f)
      ↔ f ∈ pythonRange s.frame_start (s.frame_end + 1) s.frame_step by simp]
  rw [mem_pythonRange_iff _ _ _ _ hstep]
  omega

/-- Witness for C4 at `frame_start = 1`, `frame_end = 5`, `frame_step = 2`:
exactly the frames 1, 3, 5 are rendered. -/
theorem renderAnimation_renders_exact_frames_witness :
    (renderAnimationExecute (fun p _ => p)
        { frame_start := 1, frame_end := 5, frame_step := 2,
          frame_current := 0, filepath := "out" }).2.1.map Prod.fst = [1, 3, 5] := by
  have h := (renderAnimation_renders_exact_frames (fun p _ => p)
      { frame_start := 1, frame_end := 5, frame_step := 2,
        frame_current := 0, filepath := "out" } (by decide)).1
  rw [h]
  decide

/-- C5: for every scene and frame range, after the animation render operator
completes the scene's render output path equals its value before invocation,
and the operator returns the finished status. -/
theorem renderAnimation_restores_filepath (fp : String → ℤ → String) (s : RenderScene) :
    (renderAnimationExecute fp s).1.filepath = s.filepath ∧
    (renderAnimationExecute fp s).2.2 = Status.FINISHED := by
  refine ⟨?_, rfl⟩
  have h :=
    (renderFrame_foldl fp (pythonRange s.frame_start (s.frame_end + 1) s.frame_step) s []).2
  simpa [renderAnimationExecute] using h

theorem getElem?_eraseIdx_lt {α : Type} (i : ℕ) :
    ∀ (l : List α) (j : ℕ), j < i → (l.eraseIdx i)[j]? = l[j]? := by
  induction i with
  | zero =>
    intro l j h
    exact absurd h (by omega)
  | succ n ih =>
    intro l j h
    match l with
    | [] => simp
    | a :: t =>
      match j with
      | 0 => simp [List.eraseIdx_cons_succ]
      | j' + 1 =>
        simp only [List.eraseIdx_cons_succ, List.getElem?_cons_succ]
        exact ih t j' (by omega)

theorem map_eraseIdx_comm {α β : Type} (f : α → β) :
    ∀ (l : List α) (i : ℕ), (l.eraseIdx i).map f = (l.map f).eraseIdx i := by
  intro l
  induction l with
  | nil =>
    intro i
    simp
  | cons a t ih =>
    intro i
    cases i with
    | zero => simp
    | succ n => simp [ih n]

theorem findIdx_entry_name (l : List ClassEntry) (key : String) (idx : ℕ)
    (hfind : l.findIdx? (fun c => c.name = key) = some idx) :
    idx < l.length ∧ (l.getD idx { name := "", mask_color := (0, 0, 0) }).name = key := by
  obtain ⟨hlt, hpred, -⟩ := List.findIdx?_eq_some_iff_getElem.mp hfind
  refine ⟨hlt, ?_⟩
  simp only [decide_eq_true_eq] at hpred
  simp [List.getD_eq_getElem?_getD, List.getElem?_eq_getElem hlt, hpred]

theorem removeClass_of_find_none (p : BatProperties)
    (hfind : p.classification_classes.findIdx? (fun c => c.name = p.current_class) = none) :
    removeClass p = { props := p, reports := [], status := Status.FINISHED } := by
  have hcf : collectionFind p.classification_classes p.current_class = -1 := by
    unfold collectionFind
    rw [hfind]
  have hcond : ¬(0 < p.classification_classes.length ∧
      p.current_class ≠ DEFAULT_CLASS_NAME ∧ 1 ≤ (-1 : ℤ)) := by
    rintro ⟨-, -, hbad⟩
    omega
  simp only [removeClass, hcf]
  rw [if_neg hcond]

theorem removeClass_of_find_some (p : BatProperties) (idx : ℕ)
    (hfind : p.classification_classes.findIdx? (fun c => c.name = p.current_class) = some idx)
    (hne : p.current_class ≠ DEFAULT_CLASS_NAME) (hidx : 1 ≤ idx) :
    removeClass p =
      { props := { classification_classes := p.classification_classes.eraseIdx idx
                   current_class := ((p.classification_classes.eraseIdx idx).getD (idx - 1)
                      { name := "", mask_color := (0, 0, 0) }).name }
        reports := [], status := Status.FINISHED } := by
  have hlt : idx < p.classification_classes.length := (findIdx_entry_name _ _ _ hfind).1
  have hcf : collectionFind p.classification_classes p.current_class = (idx : ℤ) := by
    unfold collectionFind
    rw [hfind]
  have hcond : 0 < p.classification_classes.length ∧
      p.current_class ≠ DEFAULT_CLASS_NAME ∧ 1 ≤ (idx : ℤ) :=
    ⟨by omega, hne, by exact_mod_cast hidx⟩
  simp only [removeClass, hcf]
  rw [if_pos hcond]
  simp only [Int.toNat_natCast]

theorem removeClass_of_find_some_noop (p : BatProperties) (idx : ℕ)
    (hfind : p.classification_classes.findIdx? (fun c => c.name = p.current_class) = some idx)
    (h : p.current_class = DEFAULT_CLASS_NAME ∨ idx = 0) :
    removeClass p = { props := p, reports := [], status := Status.FINISHED } := by
  have hcf : collectionFind p.classification_classes p.current_class = (idx : ℤ) := by
    unfold collectionFind
    rw [hfind]
  have hcond : ¬(0 < p.classification_classes.length ∧
      p.current_class ≠ DEFAULT_CLASS_NAME ∧ 1 ≤ (idx : ℤ)) := by
    rintro ⟨-, h2, h3⟩
    rcases h with h | h
    · exact h2 h
    · omega
  simp only [removeClass, hcf]
  rw [if_neg hcond]

/-- C2: given that the current selection is present in the registry (found
at index `idx`), the remove-class operation removes that entry and moves the
selection to the preceding entry exactly when the registry would not become
empty, the selection is not the reserved default name, and `idx ≠ 0`; when
any guard fails it is a silent no-op (no reports are ever emitted), and it
always returns the finished status. -/
theorem removeClass_correct (p : BatProperties) (idx : ℕ)
    (hfind : p.classification_classes.findIdx? (fun c => c.name = p.current_class) = some idx) :
    (removeClass p).reports = [] ∧
    (removeClass p).status = Status.FINISHED ∧
    (p.classification_classes.getD idx { name := "", mask_color := (0, 0, 0) }).name
      = p.current_class ∧
    (if 2 ≤ p.classification_classes.length ∧
        p.current_class ≠ DEFAULT_CLASS_NAME ∧ 1 ≤ idx then
      (removeClass p).props.classification_classes = p.classification_classes.eraseIdx idx ∧
      (removeClass p).props.current_class
        = (p.classification_classes.getD (idx - 1) { name := "", mask_color := (0, 0, 0) }).name
     else (removeClass p).props = p) := by
  obtain ⟨hlt, hname⟩ := findIdx_entry_name _ _ _ hfind
  by_cases hG : 2 ≤ p.classification_classes.length ∧
      p.current_class ≠ DEFAULT_CLASS_NAME ∧ 1 ≤ idx
  · have hR := removeClass_of_find_some p idx hfind hG.2.1 hG.2.2
    rw [hR, if_pos hG]
    refine ⟨rfl, rfl, hname, rfl, ?_⟩
    simp only [List.getD_eq_getElem?_getD]
    rw [getElem?_eraseIdx_lt idx _ (idx - 1) (by omega)]
  · have hnoop : p.current_class = DEFAULT_CLASS_NAME ∨ idx = 0 := by
      by_contra hc
      push_neg at hc
      exact hG ⟨by omega, hc.1, by omega⟩
    have hR := removeClass_of_find_some_noop p idx hfind hnoop
    rw [hR, if_neg hG]
    exact ⟨rfl, rfl, hname, rfl⟩

/-- Witness for C2: on the registry `[Background, car]` with selection
`"car"` (found at index 1), the guards pass, the entry is removed, and the
selection moves to the preceding entry `"Background"`. -/
theorem removeClass_correct_witness :
    (removeClass sampleTwoEntries).reports = [] ∧
    (removeClass sampleTwoEntries).status = Status.FINISHED ∧
    (sampleTwoEntries.classification_classes.getD 1
      { name := "", mask_color := (0, 0, 0) }).name = sampleTwoEntries.current_class ∧
    (if 2 ≤ sampleTwoEntries.classification_classes.length ∧
        sampleTwoEntries.current_class ≠ DEFAULT_CLASS_NAME ∧ 1 ≤ 1 then
      (removeClass sampleTwoEntries).props.classification_classes
        = sampleTwoEntries.classification_classes.eraseIdx 1 ∧
      (removeClass sampleTwoEntries).props.current_class
        = (sampleTwoEntries.classification_classes.getD 0
            { name := "", mask_color := (0, 0, 0) }).name
     else (removeClass sampleTwoEntries).props = sampleTwoEntries) :=
  removeClass_correct sampleTwoEntries 1 (by decide)

/-- C10: when the current selection names no entry of the registry, the
remove-class operation leaves the registry and the selection unchanged,
emits no report, and still returns the finished status. -/
theorem removeClass_absent_noop (p : BatProperties)
    (h : p.current_class ∉ classNames p) :
    removeClass p = { props := p, reports := [], status := Status.FINISHED } := by
  apply removeClass_of_find_none
  rw [List.findIdx?_eq_none_iff]
  intro c hc
  simp only [decide_eq_false_iff_not]
  intro heq
  exact h (heq ▸ List.mem_map_of_mem (fun c => c.name) hc)

/-- Witness for C10: with selection `"plane"` absent from the registry
`[Background, car]`, removing is a no-op returning the finished status. -/
theorem removeClass_absent_noop_witness :
    removeClass { sampleTwoEntries with current_class := "plane" }
      = { props := { sampleTwoEntries with current_class := "plane" }
          reports := [], status := Status.FINISHED } :=
  removeClass_absent_noop { sampleTwoEntries with current_class := "plane" } (by decide)

/-- C9: the ensure-default operation inserts exactly one entry named with the
reserved default name and colored black into an empty registry, and applied
any number of times to a non-empty registry it changes nothing. -/
theorem setDefaultClassName_idempotent :
    (∀ p : BatProperties, p.classification_classes = [] →
        (setDefaultClassName p).classification_classes
          = [{ name := DEFAULT_CLASS_NAME, mask_color := (0, 0, 0) }]) ∧
    (∀ (p : BatProperties) (n : ℕ), p.classification_classes ≠ [] →
        setDefaultClassName^[n] p = p) := by
  constructor
  · intro p hp
    simp [setDefaultClassName, hp]
  · intro p n hp
    have hfix : setDefaultClassName p = p := by
      simp [setDefaultClassName, List.isEmpty_iff, hp]
    induction n with
    | zero => rfl
    | succ m ihm => rw [Function.iterate_succ_apply, hfix, ihm]

/-- Witness for C9: ensure-default on the empty registry inserts the default
entry, and three applications to a non-empty registry change nothing. -/
theorem setDefaultClassName_idempotent_witness :
    (setDefaultClassName { classification_classes := [], current_class := "" }).classification_classes
      = [{ name := DEFAULT_CLASS_NAME, mask_color := (0, 0, 0) }] ∧
    setDefaultClassName^[3] sampleTwoEntries = sampleTwoEntries :=
  ⟨setDefaultClassName_idempotent.1 { classification_classes := [], current_class := "" } rfl,
   setDefaultClassName_idempotent.2 sampleTwoEntries 3 (by simp [sampleTwoEntries])⟩

/-- C6: add-class with the empty name reports an invalid-input error and
changes nothing; add-class with a name already present (the empty-name check
having passed) reports a warning and changes nothing; both paths return the
finished status. -/
theorem addClass_rejections (p : BatProperties) (name : String) :
    ((addClass "" p).props = p ∧
      (addClass "" p).reports
        = [{ level := ReportLevel.ERROR_INVALID_INPUT
             message := "The class name must not be empty!" }] ∧
      (addClass "" p).status = Status.FINISHED) ∧
    (name ≠ "" → name ∈ classNames p →
      (addClass name p).props = p ∧
      (addClass name p).reports
        = [{ level := ReportLevel.WARNING
             message := "The class name already exists" }] ∧
      (addClass name p).status = Status.FINISHED) := by
  constructor
  · exact ⟨rfl, rfl, rfl⟩
  · intro h1 h2
    unfold addClass
    rw [if_neg h1,
      if_pos (show name ∈ List.map (fun c => c.name) p.classification_classes from h2)]
    exact ⟨rfl, rfl, rfl⟩

/-- Witness for C6: adding the already-present name `"car"` to the registry
`[Background, car]` is rejected with a warning and changes nothing. -/
theorem addClass_rejections_witness :
    ((addClass "" sampleTwoEntries).props = sampleTwoEntries ∧
      (addClass "" sampleTwoEntries).reports
        = [{ level := ReportLevel.ERROR_INVALID_INPUT
             message := "The class name must not be empty!" }] ∧
      (addClass "" sampleTwoEntries).status = Status.FINISHED) ∧
    ((addClass "car" sampleTwoEntries).props = sampleTwoEntries ∧
      (addClass "car" sampleTwoEntries).reports
        = [{ level := ReportLevel.WARNING
             message := "The class name already exists" }] ∧
      (addClass "car" sampleTwoEntries).status = Status.FINISHED) :=
  ⟨(addClass_rejections sampleTwoEntries "car").1,
   (addClass_rejections sampleTwoEntries "car").2 (by decide) (by decide)⟩

/-- C7: add-class with a non-empty name not already registered appends one
entry carrying that name and the placeholder color to the end of the
registry (existing entries unchanged), sets the current selection to the new
entry, emits no report, and returns the finished status. -/
theorem addClass_appends (p : BatProperties) (name : String)
    (h1 : name ≠ "") (h2 : name ∉ classNames p) :
    (addClass name p).props.classification_classes
      = p.classification_classes ++ [{ name := name, mask_color := placeholder_mask_color }] ∧
    (addClass name p).props.current_class = name ∧
    (addClass name p).reports = [] ∧
    (addClass name p).status = Status.FINISHED := by
  unfold addClass
  rw [if_neg h1,
    if_neg (show name ∉ List.map (fun c => c.name) p.classification_classes from h2)]
  refine ⟨rfl, ?_, rfl, rfl⟩
  simp [List.getLastD_concat]

/-- Witness for C7: adding the fresh name `"person"` to `[Background, car]`
appends the new entry and selects it. -/
theorem addClass_appends_witness :
    (addClass "person" sampleTwoEntries).props.classification_classes
      = sampleTwoEntries.classification_classes
        ++ [{ name := "person", mask_color := placeholder_mask_color }] ∧
    (addClass "person" sampleTwoEntries).props.current_class = "person" ∧
    (addClass "person" sampleTwoEntries).reports = [] ∧
    (addClass "person" sampleTwoEntries).status = Status.FINISHED :=
  addClass_appends sampleTwoEntries "person" (by decide) (by decide)

/-- C3: starting from any state satisfying the registry invariants
(non-empty registry, default class name present, pairwise-distinct names),
each of ensure-default, add-class (with any name), and remove-class
preserves all three invariants. -/
theorem operations_preserve_invariant (p : BatProperties) (h : RegistryInvariant p) :
    RegistryInvariant (setDefaultClassName p) ∧
    (∀ name : String, RegistryInvariant (addClass name p).props) ∧
    RegistryInvariant (removeClass p).props := by
  obtain ⟨hne, hdef, hnodup⟩ := h
  refine ⟨?_, ?_, ?_⟩
  · have hfix : setDefaultClassName p = p := by
      simp [setDefaultClassName, List.isEmpty_iff, hne]
    rw [hfix]
    exact ⟨hne, hdef, hnodup⟩
  · intro name
    unfold addClass
    by_cases h1 : name = ""
    · rw [if_pos h1]
      exact ⟨hne, hdef, hnodup⟩
    · rw [if_neg h1]
      by_cases h2 : name ∈ List.map (fun c => c.name) p.classification_classes
      · rw [if_pos h2]
        exact ⟨hne, hdef, hnodup⟩
      · rw [if_neg h2]
        refine ⟨by simp, ?_, ?_⟩
        · simp only [List.map_append, List.map_cons, List.map_nil, List.mem_append]
          exact Or.inl hdef
        · simp only [List.map_append, List.map_cons, List.map_nil]
          rw [List.nodup_append]
          refine ⟨hnodup, List.nodup_singleton _, ?_⟩
          intro a ha hb
          simp only [List.mem_singleton] at hb
          subst hb
          exact h2 ha
  · cases hfind : p.classification_classes.findIdx? (fun c => c.name = p.current_class) with
    | none =>
      rw [removeClass_of_find_none p hfind]
      exact ⟨hne, hdef, hnodup⟩
    | some idx =>
      obtain ⟨hlt, hname⟩ := findIdx_entry_name _ _ _ hfind
      have hgetname : (p.classification_classes.get ⟨idx, hlt⟩).name = p.current_class := by
        have h' := hname
        simp only [List.getD_eq_getElem?_getD, List.getElem?_eq_getElem hlt,
          Option.getD_some] at h'
        exact h'
      by_cases hg : p.current_class ≠ DEFAULT_CLASS_NAME ∧ 1 ≤ idx
      · rw [removeClass_of_find_some p idx hfind hg.1 hg.2]
        refine ⟨?_, ?_, ?_⟩
        · show p.classification_classes.eraseIdx idx ≠ []
          have hlen := List.length_eraseIdx_of_lt hlt
          intro hnil
          rw [hnil] at hlen
          simp only [List.length_nil] at hlen
          omega
        · show DEFAULT_CLASS_NAME ∈
            List.map (fun c => c.name) (p.classification_classes.eraseIdx idx)
          rw [map_eraseIdx_comm]
          rw [List.mem_eraseIdx_iff_getElem?]
          obtain ⟨j, hj⟩ := List.mem_iff_getElem?.mp hdef
          refine ⟨j, ?_, hj⟩
          intro hji
          rw [hji] at hj
          rw [List.getElem?_map, List.getElem?_eq_getElem hlt, Option.map_some'] at hj
          have hj' : (p.classification_classes.get ⟨idx, hlt⟩).name = DEFAULT_CLASS_NAME :=
            Option.some.inj hj
          exact hg.1 (hgetname ▸ hj')
        · show (List.map (fun c => c.name) (p.classification_classes.eraseIdx idx)).Nodup
          rw [map_eraseIdx_comm]
          exact (List.eraseIdx_sublist _ idx).nodup hnodup
      · have h' : p.current_class = DEFAULT_CLASS_NAME ∨ idx = 0 := by
          by_contra hc
          push_neg at hc
          exact hg ⟨hc.1, by omega⟩
        rw [removeClass_of_find_some_noop p idx hfind h']
        exact ⟨hne, hdef, hnodup⟩

/-- Witness for C3: the two-entry sample registry satisfies the invariants,
and each operation (add-class instantiated at `"person"`) preserves them. -/
theorem operations_preserve_invariant_witness :
    RegistryInvariant (setDefaultClassName sampleTwoEntries) ∧
    RegistryInvariant (addClass "person" sampleTwoEntries).props ∧
    RegistryInvariant (removeClass sampleTwoEntries).props :=
  let h := operations_preserve_invariant sampleTwoEntries ⟨by decide, by decide, by decide⟩
  ⟨h.1, h.2.1 "person", h.2.2⟩

theorem length_flatMap_const {α β : Type} (l : List α) (f : α → List β) (c : ℕ)
    (h : ∀ a ∈ l, (f a).length = c) : (l.flatMap f).length = l.length * c := by
  induction l with
  | nil => simp
  | cons a t ih =>
    simp only [List.flatMap_cons, List.length_append, List.length_cons]
    rw [h a (by simp), ih (fun x hx => h x (by simp [hx]))]
    ring

theorem length_nested_flatMap {α β : Type} (l : List α) (f : α → α → α → β) :
    (l.flatMap (fun a => l.flatMap (fun b => l.map (fun c => f a b c)))).length
      = l.length * (l.length * l.length) := by
  rw [length_flatMap_const _ _ (l.length * l.length)]
  intro a _
  rw [length_flatMap_const _ _ l.length]
  intro b _
  simp

theorem nodup_nested_flatMap {α β : Type} (l : List α) (f : α → α → α → β)
    (hl : l.Nodup)
    (hinj : ∀ a₁ b₁ c₁ a₂ b₂ c₂, f a₁ b₁ c₁ = f a₂ b₂ c₂ → a₁ = a₂ ∧ b₁ = b₂ ∧ c₁ = c₂) :
    (l.flatMap (fun a => l.flatMap (fun b => l.map (fun c => f a b c)))).Nodup := by
  rw [List.nodup_flatMap]
  constructor
  · intro a _
    rw [List.nodup_flatMap]
    constructor
    · intro b _
      exact hl.map (fun c₁ c₂ hc => (hinj a b c₁ a b c₂ hc).2.2)
    · refine hl.imp ?_
      intro b₁ b₂ hbne x hx1 hx2
      obtain ⟨c₁, -, hc1⟩ := List.mem_map.mp hx1
      obtain ⟨c₂, -, hc2⟩ := List.mem_map.mp hx2
      exact hbne ((hinj a b₁ c₁ a b₂ c₂ (hc1.trans hc2.symm)).2.1)
  · refine hl.imp ?_
    intro a₁ a₂ hane x hx1 hx2
    obtain ⟨b₁, -, hb1⟩ := List.mem_flatMap.mp hx1
    obtain ⟨c₁, -, hc1⟩ := List.mem_map.mp hb1
    obtain ⟨b₂, -, hb2⟩ := List.mem_flatMap.mp hx2
    obtain ⟨c₂, -, hc2⟩ := List.mem_map.mp hb2
    exact hane ((hinj a₁ b₁ c₁ a₂ b₂ c₂ (hc1.trans hc2.symm)).1)

theorem channelValues_length : channelValues.length = 23 := by decide

theorem channelValues_nodup : channelValues.Nodup := by decide

theorem color_inj (r₁ g₁ b₁ r₂ g₂ b₂ : ℤ)
    (h : ((((r₁ : ℚ) / 255, (g₁ : ℚ) / 255, (b₁ : ℚ) / 255, 1)) : ℚ × ℚ × ℚ × ℚ)
       = ((r₂ : ℚ) / 255, (g₂ : ℚ) / 255, (b₂ : ℚ) / 255, 1)) :
    r₁ = r₂ ∧ g₁ = g₂ ∧ b₁ = b₂ := by
  rw [Prod.mk.injEq, Prod.mk.injEq, Prod.mk.injEq] at h
  obtain ⟨h1, h2, h3, -⟩ := h
  refine ⟨?_, ?_, ?_⟩
  · field_simp at h1
    exact_mod_cast h1
  · field_simp at h2
    exact_mod_cast h2
  · field_simp at h3
    exact_mod_cast h3

theorem instance_colors_length : INSTANCE_COLORS.length = 12167 := by
  unfold INSTANCE_COLORS
  rw [length_nested_flatMap channelValues
    (fun r g b => ((r : ℚ) / 255, (g : ℚ) / 255, (b : ℚ) / 255, 1))]
  rw [channelValues_length]

/-- C1 (amended): the instance-color sequence consists of three nested
descending ranges over 10, 20, ..., 230 — 23 steps per channel, not 24 —
red outer, green middle, blue inner, alpha fixed at 1; its total length is
23³ = 12,167, and all of its draws are pairwise distinct RGBA tuples. -/
theorem instance_colors_palette :
    INSTANCE_COLORS.length = 23 ^ 3 ∧ INSTANCE_COLORS.Nodup ∧
    ∀ c ∈ INSTANCE_COLORS, c.2.2.2 = 1 := by
  refine ⟨by rw [instance_colors_length]; norm_num, ?_, ?_⟩
  · unfold INSTANCE_COLORS
    exact nodup_nested_flatMap channelValues _ channelValues_nodup color_inj
  · intro c hc
    unfold INSTANCE_COLORS at hc
    simp only [List.mem_flatMap, List.mem_map] at hc
    obtain ⟨r, -, g, -, b, -, rfl⟩ := hc
    rfl

/-- C1 counterexample: the instance-color sequence has length 12,167 = 23³,
not 13,824 = 24³ — `range(10, 240, 10)` has 23 values, not 24. -/
theorem instance_colors_length_ne : ¬ INSTANCE_COLORS.length = 13824 := by
  rw [instance_colors_length]
  norm_num

/-- C8: every call to the generator factory yields the same sequence as any
other call (deterministic across fresh instantiations), that sequence is
the full palette enumerated from its first color, and the first draw equals
(230/255, 230/255, 230/255, 1). -/
theorem instance_color_fresh_and_first :
    (∀ u v : Unit, instance_color u = instance_color v) ∧
    instance_color () = INSTANCE_COLORS ∧
    (instance_color ()).head? = some (230/255, 230/255, 230/255, 1) := by
  refine ⟨fun u v => rfl, rfl, ?_⟩
  show INSTANCE_COLORS.head? = _
  have hcv : channelValues = 230 :: channelValues.tail := by decide
  rw [INSTANCE_COLORS, hcv]
  simp
